import Mathlib

/-!
Verification of the slog-console record formatter.

The repository contains two drafts of the handler; the spec's core is the
composer-based draft (`part_001`, the composer file, the `Options` file with
`AddSource`/`Level`/`ReplaceAttr`, and the buffer pool file).  Strings and
byte slices are embedded as `List Nat` (each element a byte value, or a rune
value where noted).  External collaborators (the `unicode` tables, `strconv`
quoting, `fmt`/`time` formatting, lazy value resolution) are parameters,
except where they are small enough to transcribe exactly (`utf8`
decoding, `unicode.IsSpace`, decimal formatting).
-/

namespace SlogConsole

/-- Byte list of an ASCII string literal, for readability of concrete data. -/
def strB (s : String) : List Nat := s.data.map Char.toNat

/-- Lower bound of the accepted second byte for a three byte sequence,
from Go `utf8.acceptRanges` together with the `first` table
(lead `0xE0` uses accept range 1 = [0xA0,0xBF], lead `0xED` uses
accept range 2 = [0x80,0x9F], all other three byte leads use
accept range 0 = [0x80,0xBF]). -/
def lo3 (s0 : Nat) : Nat := if s0 = 224 then 160 else 128

/-- Upper bound of the accepted second byte for a three byte sequence. -/
def hi3 (s0 : Nat) : Nat := if s0 = 237 then 159 else 191

/-- Lower bound of the accepted second byte for a four byte sequence
(lead `0xF0` uses accept range 3 = [0x90,0xBF], lead `0xF4` uses
accept range 4 = [0x80,0x8F], leads `0xF1..0xF3` use range 0). -/
def lo4 (s0 : Nat) : Nat := if s0 = 240 then 144 else 128

/-- Upper bound of the accepted second byte for a four byte sequence. -/
def hi4 (s0 : Nat) : Nat := if s0 = 244 then 143 else 191

/-- Go `utf8.DecodeRuneInString`, returning (rune, size).  Transcribed from
the Go source: ASCII bytes decode to themselves with size 1; leads
`0x80..0xC1` and `0xF5..0xFF` are invalid (`first` table entry `xx`);
otherwise the continuation bytes are checked against the accept range for
the lead and against `[0x80,0xBF]`, and every failure (truncated input or a
continuation byte out of range) yields `(RuneError, 1)` exactly as in Go,
where `RuneError = 0xFFFD = 65533`.  The masks `0x1F/0x0F/0x07/0x3F` are
written as `% 32 / % 16 / % 8 / % 64`. -/
def decodeRune : List Nat → Nat × Nat
  | [] => (65533, 0)
  | s0 :: rest =>
    if s0 < 128 then (s0, 1)
    else if s0 < 194 then (65533, 1)
    else if s0 < 224 then
      match rest with
      | s1 :: _ =>
        if 128 ≤ s1 ∧ s1 ≤ 191 then ((s0 % 32) * 64 + s1 % 64, 2) else (65533, 1)
      | _ => (65533, 1)
    else if s0 < 240 then
      match rest with
      | s1 :: s2 :: _ =>
        if lo3 s0 ≤ s1 ∧ s1 ≤ hi3 s0 ∧ 128 ≤ s2 ∧ s2 ≤ 191 then
          ((s0 % 16) * 4096 + (s1 % 64) * 64 + s2 % 64, 3)
        else (65533, 1)
      | _ => (65533, 1)
    else if s0 < 245 then
      match rest with
      | s1 :: s2 :: s3 :: _ =>
        if lo4 s0 ≤ s1 ∧ s1 ≤ hi4 s0 ∧ 128 ≤ s2 ∧ s2 ≤ 191 ∧ 128 ≤ s3 ∧ s3 ≤ 191 then
          ((s0 % 8) * 262144 + (s1 % 64) * 4096 + (s2 % 64) * 64 + s3 % 64, 4)
        else (65533, 1)
      | _ => (65533, 1)
    else (65533, 1)

/-- The `safeSet` table copied in the source from `encoding/json/tables.go`:
index range `0..127`; `false` exactly at the ASCII control characters
`0..31`, the space, the double quote (34) and the backslash (92); `true`
everywhere else including DEL (127). -/
def safeSet (b : Nat) : Bool :=
  if b < 32 ∨ b = 32 ∨ b = 34 ∨ b = 92 then false else b < 128

/-- Loop body of `needsQuoting` (handler source), fuelled so that it is
structurally recursive; fuel `s.length` always suffices because every
iteration consumes at least one byte.  For an ASCII byte the source tests
`b != '\\' && (b == ' ' || b == '=' || !safeSet[b])`; for a non ASCII byte
it decodes a rune and tests
`r == utf8.RuneError || unicode.IsSpace(r) || !unicode.IsPrint(r)`.
The Unicode classification functions are parameters `ip` (IsPrint) and
`is` (IsSpace). -/
def nqLoop (ip is : Nat → Bool) : Nat → List Nat → Bool
  | 0, _ => false
  | _, [] => false
  | fuel + 1, b :: rest =>
    if b < 128 then
      if b ≠ 92 ∧ (b = 32 ∨ b = 61 ∨ safeSet b = false) then true
      else nqLoop ip is fuel rest
    else
      let rs := decodeRune (b :: rest)
      if rs.1 = 65533 ∨ is rs.1 = true ∨ ip rs.1 = false then true
      else nqLoop ip is fuel (List.drop (rs.2 - 1) rest)

/-- `needsQuoting` from the handler source: an empty string needs quoting,
otherwise the byte/rune scan decides. -/
def needsQuoting (ip is : Nat → Bool) (s : List Nat) : Bool :=
  if s.length = 0 then true else nqLoop ip is s.length s

/-- `appendString` from the handler source.  `strconv.AppendQuote(dst, s)`
appends the Go quoted form of `s` to `dst`; that external function is the
parameter `quote` (mapping `s` to the appended bytes). -/
def appendString (quote : List Nat → List Nat) (ip is : Nat → Bool)
    (dst s : List Nat) : List Nat :=
  if needsQuoting ip is s then dst ++ quote s else dst ++ s

/-- Claim side, byte level unsafe characters exactly as the claim lists
them: space, `=`, an ASCII control character (which the safeSet comment in
the source defines as `0..31`), or a double quote. -/
def byteUnsafe (b : Nat) : Prop := b = 32 ∨ b = 61 ∨ b < 32 ∨ b = 34

instance (b : Nat) : Decidable (byteUnsafe b) := by
  unfold byteUnsafe
  infer_instance

/-- Fuelled decomposition of a byte string into its decoded (rune, size)
units, iterating `decodeRune` exactly as the scanning loop does. -/
def runeUnitsF : Nat → List Nat → List (Nat × Nat)
  | 0, _ => []
  | _, [] => []
  | fuel + 1, b :: rest =>
    let rs := decodeRune (b :: rest)
    rs :: runeUnitsF fuel (List.drop (rs.2 - 1) rest)

/-- Decoded (rune, size) units of a byte string. -/
def runeUnits (s : List Nat) : List (Nat × Nat) := runeUnitsF s.length s

/-- The claim's quoting trigger, read literally: the string is empty, or
contains one of the listed bytes, or its decoded rune sequence contains a
non ASCII unit that is whitespace or not printable per Unicode, or an
invalid encoding sequence (a unit on which the decoder reports an invalid
encoding, i.e. returns `(RuneError, 1)`). -/
def claimUnsafe (ip is : Nat → Bool) (s : List Nat) : Prop :=
  s = [] ∨ (∃ b ∈ s, byteUnsafe b) ∨
    ∃ u ∈ runeUnits s, 128 ≤ u.1 ∧
      ((u.1 = 65533 ∧ u.2 = 1) ∨ is u.1 = true ∨ ip u.1 = false)

instance (ip is : Nat → Bool) (s : List Nat) : Decidable (claimUnsafe ip is s) := by
  unfold claimUnsafe
  infer_instance

/-- The amended quoting trigger: as `claimUnsafe`, except that every unit
decoding to the replacement character U+FFFD triggers quoting — this covers
every invalid encoding sequence and also a literal, validly encoded
U+FFFD. -/
def amendedUnsafe (ip is : Nat → Bool) (s : List Nat) : Prop :=
  s = [] ∨ (∃ b ∈ s, byteUnsafe b) ∨
    ∃ u ∈ runeUnits s, 128 ≤ u.1 ∧
      (u.1 = 65533 ∨ is u.1 = true ∨ ip u.1 = false)

instance (ip is : Nat → Bool) (s : List Nat) : Decidable (amendedUnsafe ip is s) := by
  unfold amendedUnsafe
  infer_instance

/-- Go `unicode.IsSpace`, transcribed exactly: the Latin-1 fast path
(`\t \n \v \f \r`, space, NEL 0x85, NBSP 0xA0) plus the `White_Space`
table entries 0x1680, 0x2000..0x200A, 0x2028, 0x2029, 0x202F, 0x205F,
0x3000. -/
def unicodeIsSpace (r : Nat) : Bool :=
  (9 ≤ r ∧ r ≤ 13) ∨ r = 32 ∨ r = 133 ∨ r = 160 ∨
    r = 5760 ∨ (8192 ≤ r ∧ r ≤ 8202) ∨ r = 8232 ∨ r = 8233 ∨
    r = 8239 ∨ r = 8287 ∨ r = 12288

/-- Stand-in used only to instantiate the abstract IsPrint parameter at
concrete inputs.  All that the statements below use is its value at the
replacement character U+FFFD, where it returns `true` exactly as Go's
`unicode.IsPrint` does (U+FFFD has Unicode category So, which IsPrint
accepts). -/
def printableApprox (r : Nat) : Bool := 32 ≤ r

/-- The `slog.Value` tagged union (external producer type), with one
constructor per kind the handler can receive.  Payloads whose textual form
only external stdlib code produces (`float64`, `time.Time`, opaque `any`
values, `LogValuer` implementations) are opaque identifiers rendered
through the `Ext` parameters; `anyv none` is the zero `any` value (Go
`nil`), so `anyv none` is the value of the zero `slog.Attr`.  `badKind`
stands for a value whose `Kind()` reports a number outside the recognized
set.  An `slog.Attr` is a (key, value) pair, so a group payload is a list
of such pairs. -/
inductive Value where
  | str : List Nat → Value
  | int64 : Int → Value
  | uint64 : Nat → Value
  | float64 : Nat → Value
  | boolv : Bool → Value
  | duration : Int → Value
  | time : Nat → Value
  | group : List (List Nat × Value) → Value
  | anyv : Option Nat → Value
  | logValuer : Nat → Value
  | badKind : Nat → Value

/-- An `slog.Attr`: its key (`.1`) and its value (`.2`). -/
def Attr : Type := List Nat × Value

/-- External collaborators, bundled: the Unicode tables, `strconv` quoting,
`fmt`/`time`/`strconv` value formatting, `slog.Value.Resolve`, the standard
`Level.String`, the `runtime` source resolution and GOOS test. -/
structure Ext where
  isPrint : Nat → Bool
  isSpace : Nat → Bool
  quoteBytes : List Nat → List Nat
  resolve : Value → Value
  floatFmt : Nat → List Nat
  timeLayoutFmt : Nat → List Nat
  durFmt : Int → List Nat
  groupFmt : List Attr → List Nat
  anyFmt : Option Nat → List Nat
  valuerFmt : Nat → List Nat
  lvString : Int → List Nat
  formatTime : Nat → List Nat → List Nat
  goosWindows : Bool
  pcFile : Nat → List Nat
  pcLine : Nat → Nat

/-- Decimal digits of a natural number, as `strconv.AppendUint` appends
them. -/
def natDec (n : Nat) : List Nat := (Nat.toDigits 10 n).map Char.toNat

/-- Decimal form of an integer, as `strconv.AppendInt` base 10 appends it:
a minus sign (45) followed by the digits when negative. -/
def intDec (i : Int) : List Nat :=
  if i < 0 then 45 :: natDec i.natAbs else natDec i.toNat

/-- `appendValue` from the composer file: dispatch on the value kind,
appending the rendering to `dst`.  The `default` branch of the Go switch
panics on an unrecognized kind; a panic is modeled as `none` (it aborts the
whole operation before any byte of this value is appended). -/
def appendValue (ext : Ext) (v : Value) (dst : List Nat) : Option (List Nat) :=
  match v with
  | .str s => some (appendString ext.quoteBytes ext.isPrint ext.isSpace dst s)
  | .int64 i => some (dst ++ intDec i)
  | .uint64 n => some (dst ++ natDec n)
  | .float64 f => some (dst ++ ext.floatFmt f)
  | .boolv b => some (dst ++ (if b then strB "true" else strB "false"))
  | .duration d => some (dst ++ ext.durFmt d)
  | .time t => some (dst ++ ext.timeLayoutFmt t)
  | .group attrs => some (dst ++ ext.groupFmt attrs)
  | .anyv p => some (dst ++ ext.anyFmt p)
  | .logValuer i => some (dst ++ ext.valuerFmt i)
  | .badKind _ => none

/-- Handler options (the composer draft's `Options`), with the two
concurrently mutable values (`Colorize`, `Level`) replaced by the value
read at call time; the level threshold is not needed by any claim and is
omitted. -/
structure OptsM where
  addSource : Bool
  colorize : Bool
  dropTime : Bool
  stringLevel : Option (Int → List Nat)
  replaceAttr : Option (List (List Nat) → Attr → Attr)
  timeFormat : List Nat

/-- A Go byte slice together with the identity of its backing array:
`id` is the allocation number of the array the slice header points to, so
two slices alias exactly when their `id`s coincide. -/
structure SliceB where
  id : Nat
  data : List Nat

/-- The `ConsoleHandler` of the composer draft.  `pfx` is the source's
`prefix` field (a Go string, hence an immutable value); `preformatted` is
the `[]byte` field, carried with its backing array identity. -/
structure Handler where
  opts : OptsM
  groups : List (List Nat)
  preformatted : SliceB
  pfx : List Nat

/-- `a.Equal(slog.Attr{})` specialized to the zero attribute: the zero
attribute has an empty key and the zero `any` value, and `slog`'s `Equal`
first compares kinds, so only an `anyv none` value with an empty key is
equal to it. -/
def attrIsZero (a : Attr) : Bool :=
  match a.2 with
  | .anyv none => a.1.isEmpty
  | _ => false

/-- `mergePrefWithKey` of the composer draft: dot-join when both sides are
non empty, otherwise whichever side is non empty. -/
def mergePrefWithKey (pref key : List Nat) : List Nat :=
  if pref ≠ [] then (if key ≠ [] then pref ++ [46] ++ key else pref) else key

/-- `optionalReplaceAttr`: apply the configured rewrite function, passing
the handler's group chain, or return the attribute unchanged. -/
def optReplace (ra : Option (List (List Nat) → Attr → Attr))
    (groups : List (List Nat)) (a : Attr) : Attr :=
  match ra with
  | none => a
  | some f => f groups a

/-- Append a separating space when the buffer is non empty
(`addSpace(len(buf) > 0)` followed by a write). -/
def addSp (buf : List Nat) : List Nat := buf ++ if buf = [] then [] else [32]

/-- `composer.appendAttr`: rewrite, resolve, drop the zero attribute, fall
back to the handler prefix when the incoming key prefix is empty, flatten
groups recursively (dropping empty ones), and emit
`space? ++ mergedKey ++ "=" ++ value` for a leaf.  The recursion depth of
the Go original is unbounded (the rewrite/resolve functions may return
fresh groups at every level), so the embedding takes fuel; `none` is
reached only on fuel exhaustion or a panicking value kind. -/
def appendAttrC (ext : Ext) (h : Handler) :
    Nat → Attr → List Nat → List Nat → Option (List Nat)
  | 0, _, _, _ => none
  | fuel + 1, a, keyPref, buf =>
    let a1 := optReplace h.opts.replaceAttr h.groups a
    let a2 : Attr := (a1.1, ext.resolve a1.2)
    if attrIsZero a2 then some buf
    else
      let kp := if keyPref = [] then h.pfx else keyPref
      match a2.2 with
      | .group attrs =>
        if attrs.isEmpty then some buf
        else attrs.foldlM
          (fun bf ga => appendAttrC ext h fuel ga (mergePrefWithKey kp a2.1) bf) buf
      | v =>
        appendValue ext v (addSp buf ++ mergePrefWithKey kp a2.1 ++ [61])

/-- `composer.appendTime`: the composer draft skips the timestamp only when
the time is zero AND `DropTime` is set (the source literally tests
`tm.IsZero() && c.h.opts.DropTime`); otherwise it appends the formatted
time.  `tfmt` is the byte sequence `tm.AppendFormat` would append for the
record time and the configured layout. -/
def appendTimeC (dropTime isZero : Bool) (tfmt buf : List Nat) : List Nat :=
  if isZero && dropTime then buf else buf ++ tfmt

/-- ANSI reset code bytes. -/
def consoleColorReset : List Nat := [27, 91, 48, 109]

/-- ANSI red code bytes. -/
def consoleColorRed : List Nat := [27, 91, 51, 49, 109]

/-- ANSI green code bytes. -/
def consoleColorGreen : List Nat := [27, 91, 51, 50, 109]

/-- ANSI yellow code bytes. -/
def consoleColorYellow : List Nat := [27, 91, 51, 51, 109]

/-- ANSI bright white code bytes. -/
def consoleColorWhite : List Nat := [27, 91, 57, 55, 109]

/-- `composer.appendLevel`: the level token from `StringLevel` or the
standard `Level.String`, space separated, wrapped in severity-bracket ANSI
codes when colorization is on and GOOS is not windows.  Levels are the
`slog` numeric values (INFO = 0, WARN = 4, ERROR = 8). -/
def appendLevelC (ext : Ext) (h : Handler) (lv : Int) (buf : List Nat) : List Nat :=
  let lvStr := match h.opts.stringLevel with
    | some f => f lv
    | none => ext.lvString lv
  let color := h.opts.colorize && !ext.goosWindows
  if color = false then addSp buf ++ lvStr
  else
    let code :=
      if lv < 0 then consoleColorWhite
      else if lv < 4 then consoleColorGreen
      else if lv < 8 then consoleColorYellow
      else consoleColorRed
    addSp buf ++ code ++ (lvStr ++ consoleColorReset)

/-- The `slog.SourceKey` constant. -/
def sourceKey : List Nat := strB "source"

/-- `composer.appendSource`, transcribed as written in the source: it
returns early when `!c.h.opts.AddSource || pc != 0`, and otherwise appends
the attribute `slog.String(slog.SourceKey, fmt.Sprintf("%s=%d", f.File,
f.Line))` with the composer's (always empty) key prefix.  Note both the
`pc != 0` guard and the `"%s=%d"` format string are the literal source. -/
def appendSourceC (ext : Ext) (h : Handler) (fuel pc : Nat) (buf : List Nat) :
    Option (List Nat) :=
  if h.opts.addSource = false ∨ pc ≠ 0 then some buf
  else
    appendAttrC ext h fuel
      (sourceKey, .str (ext.pcFile pc ++ [61] ++ natDec (ext.pcLine pc))) [] buf

/-- A `slog.Record` as the handler consumes it. -/
structure RecordM where
  timeIsZero : Bool
  timeId : Nat
  level : Int
  message : List Nat
  pc : Nat
  attrs : List Attr

/-- `ConsoleHandler.Handle` of the composer draft, composing one line:
time, level, message, source, preformatted context, record attributes
(each through `walkAttrs`, whose key prefix `c.pref` is always empty so
the handler prefix fallback applies), newline.  The final synchronized
write is outside the embedding; the function returns the composed line. -/
def handleLineC (ext : Ext) (h : Handler) (r : RecordM) (fuel : Nat) :
    Option (List Nat) :=
  let b0 := appendTimeC h.opts.dropTime r.timeIsZero
    (ext.formatTime r.timeId h.opts.timeFormat) []
  let b1 := appendLevelC ext h r.level b0
  let b2 := if r.message = [] then b1 else addSp b1 ++ r.message
  match appendSourceC ext h fuel r.pc b2 with
  | none => none
  | some b3 =>
    let b4 := (b3 ++ if b3 ≠ [] ∧ h.preformatted.data ≠ [] then [32] else []) ++
      h.preformatted.data
    match (if r.attrs.isEmpty then some b4
      else r.attrs.foldlM (fun bf a => appendAttrC ext h fuel a [] bf) b4) with
    | none => none
    | some b5 => some (b5 ++ [10])

/-- `ConsoleHandler.withGroup` of the composer draft: the empty name is a
no-op returning the handler itself; otherwise a shallow copy whose `pfx`
gains a dot-separated segment and whose group chain gains the name.  The
shallow copy keeps the same `preformatted` slice header, so the derived
handler shares the parent's backing array. -/
def withGroupC (h : Handler) (name : List Nat) : Handler :=
  if name = [] then h
  else { h with
    pfx := (if h.pfx = [] then [] else h.pfx ++ [46]) ++ name,
    groups := h.groups ++ [name] }

/-- `ConsoleHandler.withAttrs` of the composer draft: an empty attribute
list is a no-op returning the handler itself; otherwise the incoming
attributes are flattened after the current preformatted bytes under the
current prefix, and the derived handler's `preformatted` is a freshly
allocated copy of the result.  `n` is the next unused backing-array
allocation number, threading allocation identity. -/
def withAttrsC (ext : Ext) (h : Handler) (fuel : Nat) (attrs : List Attr) (n : Nat) :
    Option (Handler × Nat) :=
  if attrs.isEmpty then some (h, n)
  else
    match attrs.foldlM (fun bf a => appendAttrC ext h fuel a h.pfx bf)
      h.preformatted.data with
    | none => none
    | some d => some ({ h with preformatted := ⟨n, d⟩ }, n + 1)

/-- The default timestamp layout. -/
def defaultTimeFormat : List Nat := strB "2006-01-02 15:04:05.000"

/-- `New` of the composer draft, restricted to the modeled fields: zero
prefix, group chain and preformatted bytes, and the `TimeFormat`
defaulting. -/
def newHandler (o : OptsM) : Handler :=
  { opts := { o with
      timeFormat := if o.timeFormat = [] then defaultTimeFormat else o.timeFormat },
    groups := [], preformatted := ⟨0, []⟩, pfx := [] }

/-- Dot-joined concatenation of a list of names, from the claim's words. -/
def dotJoin : List (List Nat) → List Nat
  | [] => []
  | [g] => g
  | g :: g2 :: gs => g ++ [46] ++ dotJoin (g2 :: gs)

/-- A pooled scratch buffer: its bytes and the capacity of its backing
array. -/
structure PoolBuf where
  data : List Nat
  cap : Nat

/-- The pool's `New` constructor: `make([]byte, 0, 1024)`. -/
def poolNewBuf : PoolBuf := ⟨[], 1024⟩

/-- `allocBuf`: take a pooled buffer, or have the pool construct a fresh
one when it is empty (`sync.Pool.Get`). -/
def allocBuf : List PoolBuf → PoolBuf × List PoolBuf
  | [] => (poolNewBuf, [])
  | b :: rest => (b, rest)

/-- `buffer.free`: truncate the buffer to length zero and return it to the
pool, unless its capacity exceeds `maxBufferSize = 16 << 10`, in which case
it is discarded. -/
def freeBuf (b : PoolBuf) (pool : List PoolBuf) : List PoolBuf :=
  if b.cap ≤ 16384 then { b with data := [] } :: pool else pool

/-- Pool invariant: every pooled buffer holds no bytes. -/
def poolInv (pool : List PoolBuf) : Prop := ∀ b ∈ pool, b.data = []

instance (pool : List PoolBuf) : Decidable (poolInv pool) := by
  unfold poolInv
  infer_instance

/-- Concrete external collaborators for evaluating the model at concrete
inputs: identity resolution, simple stand-in formatters, a quoting
function that agrees with `strconv.AppendQuote` on escape-free strings. -/
def extD : Ext :=
  { isPrint := printableApprox
    isSpace := unicodeIsSpace
    quoteBytes := fun s => [34] ++ s ++ [34]
    resolve := fun v => v
    floatFmt := fun _ => strB "0"
    timeLayoutFmt := fun _ => strB "tm"
    durFmt := fun _ => strB "1s"
    groupFmt := fun _ => strB "[]"
    anyFmt := fun _ => strB "nil"
    valuerFmt := fun _ => strB "lv"
    lvString := fun _ => strB "ERROR"
    formatTime := fun _ _ => [84]
    goosWindows := false
    pcFile := fun _ => []
    pcLine := fun _ => 0 }

/-- Default concrete options: everything off, no overrides. -/
def optsD : OptsM :=
  { addSource := false
    colorize := false
    dropTime := false
    stringLevel := none
    replaceAttr := none
    timeFormat := [] }

/-- A concrete handler with empty bound context. -/
def handlerD : Handler :=
  { opts := optsD, groups := [], preformatted := ⟨0, []⟩, pfx := [] }

/-- Claim C2: an attribute whose resolved value is a group with zero
members produces no output at all from `appendAttr` — the buffer comes
back unchanged — whatever its key and whatever the current key prefix. -/
theorem claim2_empty_group_emits_nothing (ext : Ext) (h : Handler) (fuel : Nat)
    (a : Attr) (keyPref buf : List Nat)
    (hres : ext.resolve (optReplace h.opts.replaceAttr h.groups a).2 = .group []) :
    appendAttrC ext h (fuel + 1) a keyPref buf = some buf := by
  simp [appendAttrC, hres, attrIsZero]

/-- Witness for claim C2 at a concrete group attribute with a non-empty
key and a non-empty key prefix. -/
theorem claim2_witness :
    appendAttrC extD handlerD 1 (strB "g", .group []) (strB "p") (strB "b") =
      some (strB "b") :=
  claim2_empty_group_emits_nothing extD handlerD 0 _ _ _ rfl

/-- Claim C8: `withGroup` with the empty name and `withAttrs` with no
attributes return the very same handler, and the allocation counter is
untouched (no new instance, no new backing array). -/
theorem claim8_empty_scope_ops_identity (ext : Ext) (h : Handler) (fuel n : Nat) :
    withGroupC h [] = h ∧ withAttrsC ext h fuel [] n = some (h, n) := by
  constructor
  · simp [withGroupC]
  · simp [withAttrsC]

/-- Claim C9: the value renderer panics (aborts with no output) exactly on
a value whose kind is outside the recognized set, and the dispatch on every
recognized kind produces output. -/
theorem claim9_append_value_panics_iff_bad_kind (ext : Ext) (v : Value) (dst : List Nat) :
    appendValue ext v dst = none ↔ ∃ k, v = .badKind k := by
  cases v with
  | badKind k => exact iff_of_true rfl ⟨k, rfl⟩
  | str s => exact iff_of_false (by simp [appendValue]) (fun hx => Value.noConfusion hx.choose_spec)
  | int64 i => exact iff_of_false (by simp [appendValue]) (fun hx => Value.noConfusion hx.choose_spec)
  | uint64 n => exact iff_of_false (by simp [appendValue]) (fun hx => Value.noConfusion hx.choose_spec)
  | float64 f => exact iff_of_false (by simp [appendValue]) (fun hx => Value.noConfusion hx.choose_spec)
  | boolv b => exact iff_of_false (by simp [appendValue]) (fun hx => Value.noConfusion hx.choose_spec)
  | duration d => exact iff_of_false (by simp [appendValue]) (fun hx => Value.noConfusion hx.choose_spec)
  | time t => exact iff_of_false (by simp [appendValue]) (fun hx => Value.noConfusion hx.choose_spec)
  | group attrs => exact iff_of_false (by simp [appendValue]) (fun hx => Value.noConfusion hx.choose_spec)
  | anyv p => exact iff_of_false (by simp [appendValue]) (fun hx => Value.noConfusion hx.choose_spec)
  | logValuer i => exact iff_of_false (by simp [appendValue]) (fun hx => Value.noConfusion hx.choose_spec)

/-- Claim C10: buffers from `allocBuf` are empty at acquisition — the
constructor makes them with length zero, `free` truncates to length zero
before pooling (oversized buffers are dropped), and both operations
preserve the all-pooled-buffers-empty invariant. -/
theorem claim10_pool_buffers_empty (pool : List PoolBuf) (b : PoolBuf)
    (hinv : poolInv pool) :
    (allocBuf pool).1.data = [] ∧ poolInv (allocBuf pool).2 ∧
      poolInv (freeBuf b pool) ∧ poolNewBuf.data = [] := by
  refine ⟨?_, ?_, ?_, rfl⟩
  · cases pool with
    | nil => rfl
    | cons c rest => exact hinv c (by simp)
  · cases pool with
    | nil => intro x hx; simp [allocBuf] at hx
    | cons c rest => intro x hx; exact hinv x (by simp [allocBuf] at hx; simp [hx])
  · unfold freeBuf
    split
    · intro x hx
      rcases List.mem_cons.mp hx with h1 | h2
      · simp [h1]
      · exact hinv x h2
    · exact hinv

/-- Witness for claim C10 on a concrete pool holding one empty buffer,
freeing one oversized buffer. -/
theorem claim10_witness :
    (allocBuf [⟨[], 1024⟩]).1.data = [] ∧ poolInv (allocBuf [⟨[], 1024⟩]).2 ∧
      poolInv (freeBuf ⟨[7], 20000⟩ [⟨[], 1024⟩]) ∧ poolNewBuf.data = [] :=
  claim10_pool_buffers_empty [⟨[], 1024⟩] ⟨[7], 20000⟩ (by decide)

/-- Prefix produced by one `withGroup` derivation with a non-empty name. -/
theorem withGroupC_pfx (h : Handler) (g : List Nat) (hg : g ≠ []) :
    (withGroupC h g).pfx = if h.pfx = [] then g else h.pfx ++ [46] ++ g := by
  simp only [withGroupC, if_neg hg]
  split <;> simp_all

/-- Prefix after folding a chain of non-empty `withGroup` derivations: the
dot-join of the names, appended after the existing prefix. -/
theorem foldl_withGroupC_pfx :
    ∀ (gs : List (List Nat)) (h : Handler), (∀ g ∈ gs, g ≠ []) →
      (List.foldl withGroupC h gs).pfx =
        (if gs = [] then h.pfx
         else if h.pfx = [] then dotJoin gs else h.pfx ++ [46] ++ dotJoin gs) := by
  intro gs
  induction gs with
  | nil => intro h _; simp
  | cons g gs ih =>
    intro h hgs
    have hg : g ≠ [] := hgs g (by simp)
    have hgs2 : ∀ x ∈ gs, x ≠ [] := fun x hx => hgs x (by simp [hx])
    rw [List.foldl_cons, ih (withGroupC h g) hgs2]
    rcases gs with _ | ⟨g2, gs2⟩
    · simp [dotJoin, withGroupC_pfx h g hg]
    · rw [withGroupC_pfx h g hg]
      by_cases hp : h.pfx = []
      · simp [hp, hg, dotJoin, List.append_assoc]
      · simp [hp, hg, dotJoin, List.append_assoc]

/-- Claim C5: opening groups `a` then `b` yields the same dotted prefix as
one derivation producing the name `a.b`; in general the prefix after a
chain of non-empty group openings is the dot-joined concatenation of the
names in order, appended to the existing prefix, and a new handler (no
groups opened) has an empty prefix. -/
theorem claim5_dotted_prefix_composition (h : Handler) (o : OptsM) (a b : List Nat)
    (gs : List (List Nat)) (ha : a ≠ []) (hb : b ≠ []) (hgs : ∀ g ∈ gs, g ≠ []) :
    (withGroupC (withGroupC h a) b).pfx = (withGroupC h (a ++ [46] ++ b)).pfx ∧
    (List.foldl withGroupC h gs).pfx =
      (if gs = [] then h.pfx
       else if h.pfx = [] then dotJoin gs else h.pfx ++ [46] ++ dotJoin gs) ∧
    (newHandler o).pfx = [] := by
  refine ⟨?_, foldl_withGroupC_pfx gs h hgs, rfl⟩
  have hab : a ++ [46] ++ b ≠ [] := by simp [ha]
  rw [withGroupC_pfx _ b hb, withGroupC_pfx h a ha, withGroupC_pfx h _ hab]
  by_cases hp : h.pfx = []
  · simp [hp, ha, List.append_assoc]
  · simp [hp, ha, List.append_assoc]

/-- Witness for claim C5 with concrete names "a", "b" and chain ["c"]. -/
theorem claim5_witness :
    ((withGroupC (withGroupC handlerD [97]) [98]).pfx =
      (withGroupC handlerD ([97] ++ [46] ++ [98])).pfx) ∧
    ((List.foldl withGroupC handlerD [[99]]).pfx =
      (if ([[99]] : List (List Nat)) = [] then handlerD.pfx
       else if handlerD.pfx = [] then dotJoin [[99]]
       else handlerD.pfx ++ [46] ++ dotJoin [[99]])) ∧
    (newHandler optsD).pfx = [] :=
  claim5_dotted_prefix_composition handlerD optsD [97] [98] [[99]]
    (by decide) (by decide) (by decide)

/-- Merging a prefix with an empty key yields the prefix itself. -/
theorem mergePref_nil_key (p : List Nat) : mergePrefWithKey p [] = p := by
  unfold mergePrefWithKey
  split <;> simp_all

/-- Every recognized kind appends its rendering after the destination. -/
theorem appendValue_appends (ext : Ext) (v : Value) (dst : List Nat)
    (hv : ∀ k, v ≠ .badKind k) :
    ∃ r, appendValue ext v dst = some (dst ++ r) := by
  cases v with
  | str s =>
    simp only [appendValue, appendString]
    split
    · exact ⟨ext.quoteBytes s, rfl⟩
    · exact ⟨s, rfl⟩
  | badKind k => exact absurd rfl (hv k)
  | int64 i => exact ⟨intDec i, rfl⟩
  | uint64 n => exact ⟨natDec n, rfl⟩
  | float64 f => exact ⟨ext.floatFmt f, rfl⟩
  | boolv b => exact ⟨if b then strB "true" else strB "false", rfl⟩
  | duration d => exact ⟨ext.durFmt d, rfl⟩
  | time t => exact ⟨ext.timeLayoutFmt t, rfl⟩
  | group attrs => exact ⟨ext.groupFmt attrs, rfl⟩
  | anyv p => exact ⟨ext.anyFmt p, rfl⟩
  | logValuer i => exact ⟨ext.valuerFmt i, rfl⟩

/-- On a non-zero attribute whose post-rewrite resolved value is not a
group, `appendAttr` takes the leaf branch. -/
theorem appendAttrC_leaf_general (ext : Ext) (h : Handler) (fuel : Nat) (a : Attr)
    (keyPref buf : List Nat)
    (hz : attrIsZero ((optReplace h.opts.replaceAttr h.groups a).1,
      ext.resolve (optReplace h.opts.replaceAttr h.groups a).2) = false)
    (hng : ∀ as, ext.resolve (optReplace h.opts.replaceAttr h.groups a).2 ≠ .group as) :
    appendAttrC ext h (fuel + 1) a keyPref buf =
      appendValue ext (ext.resolve (optReplace h.opts.replaceAttr h.groups a).2)
        (addSp buf ++ mergePrefWithKey (if keyPref = [] then h.pfx else keyPref)
          (optReplace h.opts.replaceAttr h.groups a).1 ++ [61]) := by
  cases hv : ext.resolve (optReplace h.opts.replaceAttr h.groups a).2 with
  | group as => exact absurd hv (hng as)
  | str s => rw [hv] at hz; simp [appendAttrC, hv, hz]
  | int64 i => rw [hv] at hz; simp [appendAttrC, hv, hz]
  | uint64 n => rw [hv] at hz; simp [appendAttrC, hv, hz]
  | float64 f => rw [hv] at hz; simp [appendAttrC, hv, hz]
  | boolv b => rw [hv] at hz; simp [appendAttrC, hv, hz]
  | duration d => rw [hv] at hz; simp [appendAttrC, hv, hz]
  | time t => rw [hv] at hz; simp [appendAttrC, hv, hz]
  | anyv p => rw [hv] at hz; simp [appendAttrC, hv, hz]
  | logValuer i => rw [hv] at hz; simp [appendAttrC, hv, hz]
  | badKind k => rw [hv] at hz; simp [appendAttrC, hv, hz]

/-- Claim C6: an attribute with an empty key and a resolved non-group leaf
value still emits an `=value` token, with the current dotted key prefix
(the incoming prefix, or the handler prefix when the incoming one is
empty) retained in front of the `=`. -/
theorem claim6_empty_key_leaf (ext : Ext) (h : Handler) (fuel : Nat) (val : Value)
    (keyPref buf : List Nat)
    (hra : h.opts.replaceAttr = none)
    (hng : ∀ as, ext.resolve val ≠ .group as)
    (hnz : ext.resolve val ≠ .anyv none)
    (hbk : ∀ k, ext.resolve val ≠ .badKind k) :
    ∃ r, appendAttrC ext h (fuel + 1) (([] : List Nat), val) keyPref buf =
      some (addSp buf ++ (if keyPref = [] then h.pfx else keyPref) ++ [61] ++ r) := by
  have ha1 : optReplace h.opts.replaceAttr h.groups (([] : List Nat), val) =
      (([] : List Nat), val) := by
    simp [optReplace, hra]
  have hz : attrIsZero (([] : List Nat), ext.resolve val) = false := by
    cases hv : ext.resolve val with
    | anyv p =>
      cases p with
      | none => exact absurd hv hnz
      | some q => rfl
    | str s => rfl
    | int64 i => rfl
    | uint64 n => rfl
    | float64 f => rfl
    | boolv b => rfl
    | duration d => rfl
    | time t => rfl
    | group as => rfl
    | logValuer i => rfl
    | badKind k => rfl
  obtain ⟨r, hr⟩ := appendValue_appends ext (ext.resolve val)
    (addSp buf ++ mergePrefWithKey (if keyPref = [] then h.pfx else keyPref) [] ++ [61]) hbk
  refine ⟨r, ?_⟩
  rw [appendAttrC_leaf_general ext h fuel _ keyPref buf (by rw [ha1]; exact hz)
    (by rw [ha1]; exact hng)]
  rw [ha1]
  simp only [mergePref_nil_key] at hr ⊢
  rw [hr]

/-- A handler with a non-empty prefix "p", for witnesses. -/
def handlerP : Handler :=
  { opts := optsD, groups := [], preformatted := ⟨0, []⟩, pfx := [112] }

/-- Witness for claim C6: empty key, int value 5, empty incoming prefix,
handler prefix "p": the token is `p=5`. -/
theorem claim6_witness :
    ∃ r, appendAttrC extD handlerP 1 (([] : List Nat), .int64 5) [] [] =
      some (addSp [] ++ (if ([] : List Nat) = [] then handlerP.pfx else []) ++ [61] ++ r) :=
  claim6_empty_key_leaf extD handlerP 0 (.int64 5) [] [] rfl
    (fun as h => Value.noConfusion h) (fun h => Value.noConfusion h)
    (fun k h => Value.noConfusion h)

/-- A handler whose preformatted slice is array 3 with one byte, for the
claim C7 counterexample. -/
def handlerCE : Handler :=
  { opts := optsD, groups := [], preformatted := ⟨3, [97]⟩, pfx := [] }

/-- Claim C7 as stated is false: `WithGroup` with a non-empty name returns
a handler whose preformatted byte storage is the parent's very own slice
(same backing array, same bytes) — the shallow copy `h2 := *h` shares it,
so the derived storage is aliased, not a fresh copy. -/
theorem claim7_counterexample :
    (withGroupC handlerCE [103]).preformatted.id = handlerCE.preformatted.id ∧
      (withGroupC handlerCE [103]).preformatted.data = handlerCE.preformatted.data ∧
      ([103] : List Nat) ≠ [] := by
  refine ⟨rfl, rfl, by decide⟩

/-- Claim C7 (amended): `WithAttrs` with attributes leaves the parent
untouched and gives the derived handler a freshly allocated preformatted
array (a new allocation number, distinct from the parent's), while
`WithGroup` leaves the parent untouched but shares the parent's
preformatted storage unchanged (it only rebuilds prefix and group chain);
either way the parent can base any number of further derivations. -/
theorem claim7_amended_derivation_independence (ext : Ext) (h : Handler) (fuel : Nat)
    (name : List Nat) (attrs : List Attr) (n : Nat) (h2 : Handler) (n2 : Nat)
    (hname : name ≠ []) (hattrs : attrs ≠ [])
    (hid : h.preformatted.id < n)
    (hw : withAttrsC ext h fuel attrs n = some (h2, n2)) :
    (withGroupC h name).preformatted = h.preformatted ∧
      (withGroupC h name).opts = h.opts ∧
      h2.preformatted.id = n ∧ h2.preformatted.id ≠ h.preformatted.id ∧
      n2 = n + 1 ∧ h2.pfx = h.pfx ∧ h2.groups = h.groups ∧ h2.opts = h.opts := by
  have hne : attrs.isEmpty = false := by
    cases attrs with
    | nil => exact absurd rfl hattrs
    | cons c cs => rfl
  unfold withAttrsC at hw
  rw [hne] at hw
  simp only [Bool.false_eq_true, if_false] at hw
  rcases hfold : List.foldlM (fun bf a => appendAttrC ext h fuel a h.pfx bf)
      h.preformatted.data attrs with _ | d
  · rw [hfold] at hw
    exact absurd hw (by simp)
  · rw [hfold] at hw
    simp only [Option.some.injEq, Prod.mk.injEq] at hw
    obtain ⟨hh, hn⟩ := hw
    subst hh hn
    refine ⟨by simp [withGroupC, hname], by simp [withGroupC, hname], rfl, ?_, rfl, rfl, rfl, rfl⟩
    simp only []
    omega

/-- Parent handler for the claim C7 witness: preformatted array 3, empty. -/
def handlerW7 : Handler :=
  { opts := optsD, groups := [], preformatted := ⟨3, []⟩, pfx := [] }

/-- Derived handler for the claim C7 witness: fresh array 4 holding "k=1". -/
def handlerW7b : Handler :=
  { opts := optsD, groups := [], preformatted := ⟨4, [107, 61, 49]⟩, pfx := [] }

/-- Witness for claim C7 (amended) at group name "g" and attribute k=1. -/
theorem claim7_witness :
    (withGroupC handlerW7 [103]).preformatted = handlerW7.preformatted ∧
      (withGroupC handlerW7 [103]).opts = handlerW7.opts ∧
      handlerW7b.preformatted.id = 4 ∧
      handlerW7b.preformatted.id ≠ handlerW7.preformatted.id ∧
      (5 : Nat) = 4 + 1 ∧ handlerW7b.pfx = handlerW7.pfx ∧
      handlerW7b.groups = handlerW7.groups ∧ handlerW7b.opts = handlerW7.opts :=
  claim7_amended_derivation_independence extD handlerW7 1 [103] [([107], .int64 1)] 4
    handlerW7b 5 (by decide) (by simp) (by decide) rfl

/-- Options for the claim C3 evaluation: `DropTime` on, no colors. -/
def optsC3 : OptsM :=
  { addSource := false, colorize := false, dropTime := true,
    stringLevel := none, replaceAttr := none, timeFormat := [84] }

/-- Handler for the claim C3 evaluation. -/
def handlerC3 : Handler :=
  { opts := optsC3, groups := [], preformatted := ⟨0, []⟩, pfx := [] }

/-- Record for the claim C3 evaluation: non-zero time, level ERROR (8),
message "m", no source, no attributes.  `extD.formatTime` renders the
timestamp as the single byte 84 ("T"). -/
def recordC3 : RecordM :=
  { timeIsZero := false, timeId := 0, level := 8, message := [109], pc := 0, attrs := [] }

/-- Claim C3 code evaluation: with `DropTime = true` and a non-zero record
time, the composed line still begins with the formatted timestamp followed
by a separating space — not with the level token — because
`composer.appendTime` tests `tm.IsZero() && DropTime` instead of
`tm.IsZero() || DropTime`.  This contradicts the repository's own test
("skip time" expects `ERROR <msg> ...` with no timestamp) and the `Handle`
doc comment. -/
theorem claim3_code_eval :
    handleLineC extD handlerC3 recordC3 1 =
      some ([84, 32] ++ strB "ERROR" ++ [32, 109, 10]) ∧
    handlerC3.opts.dropTime = true ∧ recordC3.timeIsZero = false ∧
    (∀ t : List Nat, [84, 32] ++ strB "ERROR" ++ [32, 109, 10] ≠ strB "ERROR" ++ t) := by
  refine ⟨by decide, rfl, rfl, ?_⟩
  intro t h
  simp [strB] at h

/-- Options for the claim C4 evaluation: `AddSource` on. -/
def optsC4 : OptsM :=
  { addSource := true, colorize := false, dropTime := false,
    stringLevel := none, replaceAttr := none, timeFormat := [] }

/-- Handler for the claim C4 evaluation. -/
def handlerC4 : Handler :=
  { opts := optsC4, groups := [], preformatted := ⟨0, []⟩, pfx := [] }

/-- Claim C4 code evaluation: with `AddSource = true` and a live (non-zero)
program counter, `composer.appendSource` emits nothing at all (its guard
`!AddSource || pc != 0` returns early exactly when a pc is present); and
with `pc = 0` it does emit a source attribute, whose value is built with
`fmt.Sprintf("%s=%d", ...)` — an `=` separator, not the `:` the claim and
the `Handle` doc comment (`FILE:LINE`) require — here `source="=0"` since
the zero pc resolves to an empty file and line 0, and the value is quoted
because it contains `=`. -/
theorem claim4_code_eval :
    appendSourceC extD handlerC4 1 1 [] = some [] ∧
      appendSourceC extD handlerC4 1 0 [] =
        some (strB "source=" ++ [34, 61, 48, 34]) ∧
      handlerC4.opts.addSource = true := by
  refine ⟨by decide, by decide, rfl⟩

/-- ASCII bytes decode to themselves with size 1. -/
theorem decodeRune_ascii (b : Nat) (rest : List Nat) (hb : b < 128) :
    decodeRune (b :: rest) = (b, 1) := by
  simp [decodeRune, hb]

/-- For a non ASCII lead byte the decoded rune is non ASCII (valid
multibyte decodes land at or above 0x80 because overlong forms are
rejected, and failures return RuneError), and every byte the unit consumes
beyond the lead is at or above 0x80 (continuation bytes are range checked;
failures consume only the lead byte). -/
theorem decodeRune_hi (b : Nat) (rest : List Nat) (hb : 128 ≤ b) :
    128 ≤ (decodeRune (b :: rest)).1 ∧
      ∀ x ∈ List.take ((decodeRune (b :: rest)).2 - 1) rest, 128 ≤ x := by
  have hb1 : ¬ b < 128 := by omega
  rcases rest with _ | ⟨s1, rest1⟩
  · simp only [decodeRune, hb1, if_false]
    split_ifs <;> constructor <;> simp <;> omega
  · rcases rest1 with _ | ⟨s2, rest2⟩
    · simp only [decodeRune, hb1, if_false, lo3, hi3, lo4, hi4]
      split_ifs <;> constructor <;> simp <;> omega
    · rcases rest2 with _ | ⟨s3, rest3⟩
      · simp only [decodeRune, hb1, if_false, lo3, hi3, lo4, hi4]
        split_ifs <;> constructor <;> simp <;> omega
      · simp only [decodeRune, hb1, if_false, lo3, hi3, lo4, hi4]
        split_ifs <;> constructor <;> simp <;> omega

/-- Unsafe bytes are ASCII. -/
theorem byteUnsafe_lt (x : Nat) (hx : byteUnsafe x) : x < 128 := by
  rcases hx with h | h | h | h <;> omega

/-- Dropping a block of non ASCII bytes does not change whether an unsafe
byte occurs. -/
theorem exists_unsafe_drop (k : Nat) (l : List Nat)
    (hk : ∀ x ∈ List.take k l, 128 ≤ x) :
    ((∃ x ∈ l, byteUnsafe x) ↔ ∃ x ∈ List.drop k l, byteUnsafe x) := by
  constructor
  · rintro ⟨x, hx, hux⟩
    refine ⟨x, ?_, hux⟩
    rw [← List.take_append_drop k l] at hx
    rcases List.mem_append.mp hx with h1 | h2
    · exact absurd (hk x h1) (by have := byteUnsafe_lt x hux; omega)
    · exact h2
  · rintro ⟨x, hx, hux⟩
    refine ⟨x, ?_, hux⟩
    rw [← List.take_append_drop k l]
    exact List.mem_append.mpr (Or.inr hx)

/-- The fuel of `runeUnitsF` is irrelevant once it covers the length. -/
theorem runeUnitsF_congr :
    ∀ (f g : Nat) (s : List Nat), s.length ≤ f → s.length ≤ g →
      runeUnitsF f s = runeUnitsF g s := by
  intro f
  induction f with
  | zero =>
    intro g s hf hg
    have hs : s = [] := List.length_eq_zero.mp (Nat.le_zero.mp hf)
    subst hs
    cases g <;> rfl
  | succ f ih =>
    intro g s hf hg
    cases s with
    | nil => cases g <;> rfl
    | cons b rest =>
      cases g with
      | zero => simp at hg
      | succ g =>
        simp only [runeUnitsF]
        congr 1
        apply ih
        · have h1 := List.length_drop ((decodeRune (b :: rest)).2 - 1) rest
          simp at hf
          omega
        · have h1 := List.length_drop ((decodeRune (b :: rest)).2 - 1) rest
          simp at hg
          omega

/-- One-step unfolding of the decoded unit decomposition. -/
theorem runeUnits_cons (b : Nat) (rest : List Nat) :
    runeUnits (b :: rest) =
      decodeRune (b :: rest) ::
        runeUnits (List.drop ((decodeRune (b :: rest)).2 - 1) rest) := by
  unfold runeUnits
  simp only [List.length_cons, runeUnitsF]
  congr 1
  apply runeUnitsF_congr
  · have := List.length_drop ((decodeRune (b :: rest)).2 - 1) rest
    omega
  · exact le_rfl

/-- The source's ASCII trigger condition coincides with the claim's list
of unsafe bytes, on the ASCII range. -/
theorem ascii_trig :
    ∀ b : Nat, b < 128 →
      ((b ≠ 92 ∧ (b = 32 ∨ b = 61 ∨ safeSet b = false)) ↔ byteUnsafe b) := by
  decide

/-- Characterization of the scanning loop: it reports true exactly when
some byte is unsafe or some decoded non ASCII unit is the replacement
character, whitespace, or not printable. -/
theorem nqLoop_iff (ip is : Nat → Bool) :
    ∀ (f : Nat) (s : List Nat), s.length ≤ f →
      (nqLoop ip is f s = true ↔
        ((∃ x ∈ s, byteUnsafe x) ∨
          ∃ u ∈ runeUnits s, 128 ≤ u.1 ∧
            (u.1 = 65533 ∨ is u.1 = true ∨ ip u.1 = false))) := by
  intro f
  induction f with
  | zero =>
    intro s hf
    have hs : s = [] := List.length_eq_zero.mp (Nat.le_zero.mp hf)
    subst hs
    simp [nqLoop, runeUnits, runeUnitsF]
  | succ f ih =>
    intro s hf
    cases s with
    | nil => simp [nqLoop, runeUnits, runeUnitsF]
    | cons b rest =>
      have hf2 : rest.length ≤ f := by simp at hf; omega
      rw [runeUnits_cons]
      by_cases hb : b < 128
      · rw [decodeRune_ascii b rest hb]
        simp only [nqLoop]
        rw [if_pos hb]
        by_cases htrig : b ≠ 92 ∧ (b = 32 ∨ b = 61 ∨ safeSet b = false)
        · rw [if_pos htrig]
          have hub : byteUnsafe b := (ascii_trig b hb).mp htrig
          simp [hub]
        · rw [if_neg htrig, ih rest hf2]
          have hnb : ¬ byteUnsafe b := fun hub => htrig ((ascii_trig b hb).mpr hub)
          have hb2 : ¬ (128 ≤ b) := by omega
          simp [hnb, hb2]
      · have hb2 : 128 ≤ b := by omega
        obtain ⟨hr1, hr2⟩ := decodeRune_hi b rest hb2
        simp only [nqLoop]
        rw [if_neg hb]
        by_cases hcond : (decodeRune (b :: rest)).1 = 65533 ∨
            is (decodeRune (b :: rest)).1 = true ∨ ip (decodeRune (b :: rest)).1 = false
        · rw [if_pos hcond]
          constructor
          · intro _
            exact Or.inr ⟨decodeRune (b :: rest), by simp, hr1, hcond⟩
          · intro _
            rfl
        · rw [if_neg hcond]
          rw [ih (List.drop ((decodeRune (b :: rest)).2 - 1) rest)
            (by have := List.length_drop ((decodeRune (b :: rest)).2 - 1) rest; omega)]
          have hnb : ¬ byteUnsafe b := fun h => by have := byteUnsafe_lt b h; omega
          have hbridge := exists_unsafe_drop ((decodeRune (b :: rest)).2 - 1) rest hr2
          simp [hnb, hcond, hbridge]

/-- `needsQuoting` decides exactly the amended trigger, for every choice of
the Unicode classification functions. -/
theorem needsQuoting_iff_amended (ip is : Nat → Bool) (s : List Nat) :
    needsQuoting ip is s = true ↔ amendedUnsafe ip is s := by
  unfold needsQuoting amendedUnsafe
  cases s with
  | nil => simp
  | cons b rest =>
    rw [if_neg (by simp)]
    rw [nqLoop_iff ip is (b :: rest).length (b :: rest) le_rfl]
    simp

/-- Claim C1 (amended): `appendString` quotes `s` if and only if `s` is
empty or contains a space, `=`, an ASCII control character (0x00-0x1F, as
the source's safeSet table defines them), a double quote, a non ASCII rune
that is whitespace or not printable per Unicode, or a byte sequence
decoding to the replacement character U+FFFD — the last case covering
every invalid UTF-8 sequence and also a literal, validly encoded U+FFFD; a
backslash by itself does not trigger quoting; when quoting is not
triggered the bytes of `s` are appended verbatim.  The Unicode
classification functions are universally quantified parameters. -/
theorem claim1_amended_quoting (quote : List Nat → List Nat) (ip is : Nat → Bool)
    (dst s : List Nat) :
    (needsQuoting ip is s = true ↔ amendedUnsafe ip is s) ∧
    (needsQuoting ip is s = false → appendString quote ip is dst s = dst ++ s) ∧
    needsQuoting ip is [92] = false := by
  refine ⟨needsQuoting_iff_amended ip is s, ?_, ?_⟩
  · intro hq
    simp [appendString, hq]
  · simp [needsQuoting, nqLoop]

/-- Claim C1 as stated is false at the bytes `EF BF BD`, the valid UTF-8
encoding of the replacement character U+FFFD: U+FFFD is printable (category
So) and not whitespace per Unicode, the encoding is valid, and no listed
byte occurs, yet `needsQuoting` returns true because the decoded rune
equals `utf8.RuneError`.  The instantiated classification functions agree
with Go's `unicode.IsPrint` / `unicode.IsSpace` at U+FFFD (the only rune of
this string). -/
theorem claim1_counterexample :
    needsQuoting printableApprox unicodeIsSpace [239, 191, 189] = true ∧
      ¬ claimUnsafe printableApprox unicodeIsSpace [239, 191, 189] := by
  constructor
  · decide
  · decide

/-- Witness for claim C1 (amended) at the unquoted string "ab": the bytes
pass through verbatim. -/
theorem claim1_witness :
    appendString (fun s => [34] ++ s ++ [34]) printableApprox unicodeIsSpace
      [100] [97, 98] = [100] ++ [97, 98] :=
  (claim1_amended_quoting (fun s => [34] ++ s ++ [34]) printableApprox unicodeIsSpace
    [100] [97, 98]).2.1 (by decide)

end SlogConsole
